import Mathlib

/-!
Verification of the connection/transaction layer of the `rust-journey`
repository (`src/hello_cargo/llm-provider/connection/Neo4jConnection.rs`)
against its natural-language specification.

The Rust struct `Neo4jConnection { session: Arc<Graph>, transaction: Option<Txn> }`
is embedded as a Lean structure whose `session` field is an opaque identity
(a natural number standing for the `Arc<Graph>` pointer) and whose
`transaction` field holds the server transaction id of the `Txn` handle, if any.

The neo4rs driver (the transport) is external to the repository, so its
behaviour is an input to every operation: each embedded method takes the
outcome the transport would produce (success, a row stream, or an error) as an
explicit argument, and threads a `TransportState` that records the server-side
open transactions and the trace of calls issued.  This lets theorems speak
about "issues no transport call" (the call trace is unchanged) and "opens a
second server transaction" (the open-transaction list grows).
-/

/-- Embedding of `neo4rs::Error`: either a network/protocol (transport) failure
or an error built from a string via `neo4rs::Error::from("...")`, as the
source does in `commit_transaction`/`rollback_transaction`. -/
inductive Neo4jError where
  | transport (msg : String)
  | stringError (msg : String)
deriving DecidableEq

/-- A result row (`neo4rs::Row`) is opaque to the connection layer; an id
suffices for the embedding. -/
abbrev Row := Nat

/-- One call issued to the neo4rs transport, recorded so that theorems can
state which network round-trips an operation performs. -/
inductive TransportCall where
  | startTxn
  | commitTxn (t : Nat)
  | rollbackTxn (t : Nat)
  | executeTxn (t : Nat)
  | executeSession
deriving DecidableEq

/-- State of the external transport (the neo4rs driver plus server):
`nextTxn` is the id the next started transaction will get, `openTxns` the
server-side transactions started and not yet committed/rolled back, and
`calls` the trace of transport calls issued so far. -/
structure TransportState where
  nextTxn : Nat
  openTxns : List Nat
  calls : List TransportCall
deriving DecidableEq

/-- Embedding of the Rust struct `Neo4jConnection`. -/
structure Neo4jConnection where
  session : Nat
  transaction : Option Nat
deriving DecidableEq

/-- `Neo4jConnection::new(session)`: fresh connection, no transaction held. -/
def Neo4jConnection.new (session : Nat) : Neo4jConnection :=
  ⟨session, none⟩

/-- `Neo4jConnection::session_id`: the source returns the placeholder string
unconditionally. -/
def Neo4jConnection.session_id (_ : Neo4jConnection) : String :=
  "session_id_placeholder"

/-- The row-collection loop of `Neo4jConnection::query`:
`while let Ok(Some(row)) = rows.next().await { mapped.push(map_fn(row)); }`.
The stream is the list of outcomes `rows.next()` would yield before the
stream's natural end (`Ok(None)`).  An `Err` item terminates the loop
without being propagated. -/
def collectRows {T : Type} (map_fn : Row → T) : List (Except Neo4jError Row) → List T
  | [] => []
  | .ok r :: rest => map_fn r :: collectRows map_fn rest
  | .error _ :: _ => []

/-- `Neo4jConnection::query`: builds the query, executes it on the held
transaction if any, otherwise on the session; then eagerly collects rows.
`execResult` is the outcome of the transport's `execute` call: an error, or a
row stream.  Returns (result, connection after, transport after). -/
def Neo4jConnection.query {T : Type} (conn : Neo4jConnection) (tr : TransportState)
    (_statement : String) (map_fn : Row → T)
    (execResult : Except Neo4jError (List (Except Neo4jError Row))) :
    Except Neo4jError (List T) × Neo4jConnection × TransportState :=
  let call := match conn.transaction with
    | some t => TransportCall.executeTxn t
    | none => TransportCall.executeSession
  let tr' := { tr with calls := tr.calls ++ [call] }
  match execResult with
  | .error e => (.error e, conn, tr')
  | .ok stream => (.ok (collectRows map_fn stream), conn, tr')

/-- `Neo4jConnection::start_transaction`:
`self.transaction = Some(self.session.start_txn().await?); Ok(())`.
The transport is always asked to start a transaction (no local check); on
success the fresh handle replaces whatever was held, and the server now has
one more open transaction; on failure the `?` propagates before the
assignment, leaving the held handle unchanged. -/
def Neo4jConnection.start_transaction (conn : Neo4jConnection) (tr : TransportState)
    (outcome : Except Neo4jError Unit) :
    Except Neo4jError Unit × Neo4jConnection × TransportState :=
  let tr' := { tr with calls := tr.calls ++ [TransportCall.startTxn] }
  match outcome with
  | .error e => (.error e, conn, tr')
  | .ok _ =>
      (.ok (), { conn with transaction := some tr.nextTxn },
        { tr' with nextTxn := tr.nextTxn + 1, openTxns := tr.openTxns ++ [tr.nextTxn] })

/-- `Neo4jConnection::commit_transaction`:
`if let Some(txn) = self.transaction.take() { txn.commit().await } else { Err(...) }`.
With no handle held the error is produced locally, with no transport call;
with a handle held, `take()` clears the field before the await, so the field
is cleared whether the commit succeeds or fails.  On a successful commit the
server transaction is no longer open. -/
def Neo4jConnection.commit_transaction (conn : Neo4jConnection) (tr : TransportState)
    (outcome : Except Neo4jError Unit) :
    Except Neo4jError Unit × Neo4jConnection × TransportState :=
  match conn.transaction with
  | none => (.error (.stringError ("No transaction to commit")), conn, tr)
  | some t =>
      let tr' := { tr with calls := tr.calls ++ [TransportCall.commitTxn t] }
      let conn' := { conn with transaction := none }
      match outcome with
      | .ok _ => (.ok (), conn', { tr' with openTxns := tr'.openTxns.erase t })
      | .error e => (.error e, conn', tr')

/-- `Neo4jConnection::rollback_transaction`: same shape as commit. -/
def Neo4jConnection.rollback_transaction (conn : Neo4jConnection) (tr : TransportState)
    (outcome : Except Neo4jError Unit) :
    Except Neo4jError Unit × Neo4jConnection × TransportState :=
  match conn.transaction with
  | none => (.error (.stringError ("No transaction to rollback")), conn, tr)
  | some t =>
      let tr' := { tr with calls := tr.calls ++ [TransportCall.rollbackTxn t] }
      let conn' := { conn with transaction := none }
      match outcome with
      | .ok _ => (.ok (), conn', { tr' with openTxns := tr'.openTxns.erase t })
      | .error e => (.error e, conn', tr')

/-- `Neo4jConnection::release`: `Ok(())` with no other effect.  The Rust
method takes `&self`, so it cannot modify the connection, and its body issues
no transport call. -/
def Neo4jConnection.release (conn : Neo4jConnection) (tr : TransportState) :
    Except Neo4jError Unit × Neo4jConnection × TransportState :=
  (.ok (), conn, tr)

/-- One operation of a client-driven sequence on a connection, carrying the
outcome the external transport would produce for it. -/
inductive ConnOp where
  | start (outcome : Except Neo4jError Unit)
  | commit (outcome : Except Neo4jError Unit)
  | rollback (outcome : Except Neo4jError Unit)
  | runQuery (execResult : Except Neo4jError (List (Except Neo4jError Row)))
  | doRelease

/-- Apply one operation to a connection/transport pair, discarding the
caller-visible result. -/
def connStep (s : Neo4jConnection × TransportState) (op : ConnOp) :
    Neo4jConnection × TransportState :=
  match op with
  | .start o => (s.1.start_transaction s.2 o).2
  | .commit o => (s.1.commit_transaction s.2 o).2
  | .rollback o => (s.1.rollback_transaction s.2 o).2
  | .runQuery r => (s.1.query s.2 ("") (fun r => r) r).2
  | .doRelease => (s.1.release s.2).2

/-- Run a sequence of operations from an initial state. -/
def connRun (s : Neo4jConnection × TransportState) (ops : List ConnOp) :
    Neo4jConnection × TransportState :=
  ops.foldl connStep s

/-- The transport state at the start of a session: no transactions ever
started, no calls issued. -/
def initTransport : TransportState :=
  ⟨0, [], []⟩

/-- Modelled from the spec: the Pool component (spec §4.4) is specified but
absent from the repository source, which contains only the `Connection` trait
and the `Neo4jConnection` wrapper.  Sessions are identified by integer ids;
the pool partitions the sessions it has ever created into `idle`, `leased`,
and `discarded`, and grows lazily with fresh ids drawn from `nextId`.
`capacity` is the configured maximum. -/
structure Pool where
  capacity : Nat
  idle : List Nat
  leased : List Nat
  discarded : List Nat
  nextId : Nat
deriving DecidableEq

/-- Modelled from the spec: a freshly constructed pool owns no sessions. -/
def Pool.init (capacity : Nat) : Pool :=
  ⟨capacity, [], [], [], 0⟩

/-- All sessions the pool has ever created, by partition. -/
def Pool.allSessions (p : Pool) : List Nat :=
  p.idle ++ p.leased ++ p.discarded

/-- Modelled from the spec: `acquire` hands out an idle session if one
exists; otherwise, if the live count is below capacity, it lazily creates a
fresh session and leases it; otherwise the caller times out and the pool is
unchanged. -/
def Pool.acquire (p : Pool) : Pool :=
  match p.idle with
  | s :: rest => { p with idle := rest, leased := p.leased ++ [s] }
  | [] =>
      if p.idle.length + p.leased.length < p.capacity then
        { p with leased := p.leased ++ [p.nextId], nextId := p.nextId + 1 }
      else
        p

/-- Modelled from the spec: `release` of a leased session returns it to
`idle` when its final transaction state is clean, and moves it to
`discarded` (transport closed) when it is poisoned or an error was passed.
Releasing a session the pool never leased is a caller fault and leaves the
pool unchanged. -/
def Pool.release (p : Pool) (s : Nat) (poisoned : Bool) : Pool :=
  if s ∈ p.leased then
    if poisoned then
      { p with leased := p.leased.erase s, discarded := p.discarded ++ [s] }
    else
      { p with leased := p.leased.erase s, idle := p.idle ++ [s] }
  else
    p

/-- One pool operation with its observable inputs. -/
inductive PoolOp where
  | acquire
  | release (s : Nat) (poisoned : Bool)
deriving DecidableEq

/-- Apply one pool operation. -/
def Pool.step (p : Pool) : PoolOp → Pool
  | .acquire => p.acquire
  | .release s poisoned => p.release s poisoned

/-- Run a sequence of pool operations. -/
def Pool.run (p : Pool) (ops : List PoolOp) : Pool :=
  ops.foldl Pool.step p

/-- The pool bookkeeping invariant: the live count is bounded by the
configured capacity, every session the pool ever created lies in exactly one
partition (the concatenation of the partitions has no duplicate), and all
session ids are below the freshness counter. -/
structure Pool.Inv (p : Pool) : Prop where
  cap : p.idle.length + p.leased.length ≤ p.capacity
  nodup : p.allSessions.Nodup
  fresh : ∀ s ∈ p.allSessions, s < p.nextId

/-- C1: counterexample.  With a transaction handle already held (`some 0`),
`start_transaction` does not fail with an already-in-transaction error: it
returns `Ok(())`, asks the transport to start a new transaction (the call
trace grows by one `startTxn` call), and overwrites the held handle with the
fresh one. -/
theorem c1_counterexample :
    (Neo4jConnection.start_transaction ⟨0, some 0⟩ ⟨1, [0], [TransportCall.startTxn]⟩
        (.ok ())).1 = Except.ok () ∧
    (Neo4jConnection.start_transaction ⟨0, some 0⟩ ⟨1, [0], [TransportCall.startTxn]⟩
        (.ok ())).2.2.calls = [TransportCall.startTxn, TransportCall.startTxn] ∧
    (Neo4jConnection.start_transaction ⟨0, some 0⟩ ⟨1, [0], [TransportCall.startTxn]⟩
        (.ok ())).2.1.transaction = some 1 :=
  ⟨rfl, rfl, rfl⟩

/-- C1 (amended): `start_transaction` performs no local held-handle check: for
every connection, held handle or not, it always issues a `startTxn` transport
call; on transport success it returns `Ok` and stores the fresh handle
(replacing any held one); on transport failure it propagates the error and
leaves the held handle unchanged.  It never fails with an
already-in-transaction error. -/
theorem start_transaction_always_asks_transport (conn : Neo4jConnection)
    (tr : TransportState) :
    (conn.start_transaction tr (.ok ())).1 = Except.ok () ∧
    (conn.start_transaction tr (.ok ())).2.1.transaction = some tr.nextTxn ∧
    (conn.start_transaction tr (.ok ())).2.2.calls
      = tr.calls ++ [TransportCall.startTxn] ∧
    ∀ e, (conn.start_transaction tr (.error e)).1 = Except.error e ∧
      (conn.start_transaction tr (.error e)).2.1 = conn ∧
      (conn.start_transaction tr (.error e)).2.2.calls
        = tr.calls ++ [TransportCall.startTxn] :=
  ⟨rfl, rfl, rfl, fun _ => ⟨rfl, rfl, rfl⟩⟩

/-- C2: counterexample.  A transport failure while streaming rows is silently
swallowed: with a stream that yields one row, then a transport error, then
one more row, `query` returns `Ok([1])` — the error is dropped together with
the remaining row, not reported to the caller. -/
theorem c2_counterexample :
    (Neo4jConnection.query ⟨0, none⟩ initTransport ("RETURN n") (fun r => r)
        (.ok [.ok 1, .error (.transport ("connection reset")), .ok 2])).1
      = Except.ok [1] :=
  rfl

/-- The row loop maps an error-free stream in order. -/
theorem collectRows_map_ok {T : Type} (f : Row → T) (rows : List Row) :
    collectRows f (rows.map Except.ok) = rows.map f := by
  induction rows with
  | nil => rfl
  | cons r rest ih => simp [collectRows, ih]

/-- The row loop stops at the first error item, keeping only the rows before
it and dropping the error. -/
theorem collectRows_stops_at_error {T : Type} (f : Row → T) (front : List Row)
    (e : Neo4jError) (rest : List (Except Neo4jError Row)) :
    collectRows f (front.map Except.ok ++ Except.error e :: rest) = front.map f := by
  induction front with
  | nil => rfl
  | cons r rs ih => simp [collectRows, ih]

/-- C2 (amended): `query` eagerly materializes results in server order,
applying the row mapper to each row, and a failure of the execute call itself
is returned to the caller; but a transport failure while streaming rows is
swallowed: iteration stops and the rows read so far are returned as `Ok`. -/
theorem query_materializes_in_order_but_swallows_stream_errors {T : Type}
    (conn : Neo4jConnection) (tr : TransportState) (stmt : String) (f : Row → T) :
    (∀ e, (conn.query tr stmt f (.error e)).1 = Except.error e) ∧
    (∀ rows : List Row,
        (conn.query tr stmt f (.ok (rows.map Except.ok))).1
          = Except.ok (rows.map f)) ∧
    (∀ (front : List Row) (e : Neo4jError) (rest : List (Except Neo4jError Row)),
        (conn.query tr stmt f (.ok (front.map Except.ok ++ Except.error e :: rest))).1
          = Except.ok (front.map f)) := by
  refine ⟨fun e => rfl, fun rows => ?_, fun front e rest => ?_⟩
  · simp [Neo4jConnection.query, collectRows_map_ok]
  · simp [Neo4jConnection.query, collectRows_stops_at_error]

/-- C3: with no transaction handle held, `commit_transaction` and
`rollback_transaction` fail locally with the no-active-transaction string
error and leave both the connection and the transport — in particular the
call trace — unchanged: the rejection issues no transport call. -/
theorem commit_rollback_without_handle_fail_locally (conn : Neo4jConnection)
    (tr : TransportState) (o : Except Neo4jError Unit)
    (h : conn.transaction = none) :
    (conn.commit_transaction tr o).1
        = Except.error (.stringError ("No transaction to commit")) ∧
    (conn.commit_transaction tr o).2.1 = conn ∧
    (conn.commit_transaction tr o).2.2 = tr ∧
    (conn.rollback_transaction tr o).1
        = Except.error (.stringError ("No transaction to rollback")) ∧
    (conn.rollback_transaction tr o).2.1 = conn ∧
    (conn.rollback_transaction tr o).2.2 = tr := by
  simp [Neo4jConnection.commit_transaction, Neo4jConnection.rollback_transaction, h]

/-- C3 witness: the theorem applied at a concrete idle connection. -/
theorem commit_rollback_without_handle_fail_locally_witness :
    (Neo4jConnection.new 0).transaction = none ∧
    ((Neo4jConnection.new 0).commit_transaction initTransport (.ok ())).1
      = Except.error (.stringError ("No transaction to commit")) :=
  ⟨rfl, (commit_rollback_without_handle_fail_locally (Neo4jConnection.new 0)
    initTransport (.ok ()) rfl).1⟩

/-- C4: with a handle held, commit and rollback clear the transaction handle
field whether the transport outcome is success or failure — the Rust
`take()` clears the field before awaiting the transport. -/
theorem commit_rollback_clear_handle (conn : Neo4jConnection) (tr : TransportState)
    (t : Nat) (o : Except Neo4jError Unit) (h : conn.transaction = some t) :
    (conn.commit_transaction tr o).2.1.transaction = none ∧
    (conn.rollback_transaction tr o).2.1.transaction = none := by
  cases o <;>
    simp [Neo4jConnection.commit_transaction, Neo4jConnection.rollback_transaction, h]

/-- C4 witness: the theorem applied at a connection holding handle 5 with a
failing transport commit. -/
theorem commit_rollback_clear_handle_witness :
    (⟨0, some 5⟩ : Neo4jConnection).transaction = some 5 ∧
    ((⟨0, some 5⟩ : Neo4jConnection).commit_transaction initTransport
        (.error (.transport ("timeout")))).2.1.transaction = none :=
  ⟨rfl, (commit_rollback_clear_handle ⟨0, some 5⟩ initTransport 5
      (.error (.transport ("timeout"))) rfl).1⟩

/-- C5: counterexample.  From a fresh connection, the successful sequence
`start_transaction; start_transaction` leaves TWO transactions open on the
server (`openTxns = [0, 1]`) while the connection holds only the second
handle: the first transaction was never committed or rolled back, so the
session does not keep "at most one transaction open". -/
theorem c5_counterexample :
    (connRun (Neo4jConnection.new 0, initTransport)
        [ConnOp.start (.ok ()), ConnOp.start (.ok ())]).2.openTxns = [0, 1] ∧
    (connRun (Neo4jConnection.new 0, initTransport)
        [ConnOp.start (.ok ()), ConnOp.start (.ok ())]).1.transaction = some 1 :=
  ⟨rfl, rfl⟩

/-- C5 (amended): the connection stores at most one handle at a time (the
field is an `Option`), but calling `start_transaction` while a transaction
`t` is open does open a second server transaction: `t` remains open
afterwards, the open-transaction count grows by one, and the held handle is
replaced by the fresh one — the first transaction is leaked, not closed. -/
theorem start_transaction_while_open_leaks (conn : Neo4jConnection)
    (tr : TransportState) (t : Nat) (h1 : conn.transaction = some t)
    (h2 : t ∈ tr.openTxns) :
    (conn.start_transaction tr (.ok ())).2.1.transaction = some tr.nextTxn ∧
    t ∈ (conn.start_transaction tr (.ok ())).2.2.openTxns ∧
    (conn.start_transaction tr (.ok ())).2.2.openTxns.length
      = tr.openTxns.length + 1 := by
  refine ⟨rfl, ?_, by simp [Neo4jConnection.start_transaction]⟩
  simp only [Neo4jConnection.start_transaction, List.mem_append]
  exact Or.inl h2

/-- C5 (amended) witness: the theorem applied at a connection holding open
transaction 0. -/
theorem start_transaction_while_open_leaks_witness :
    (⟨0, some 0⟩ : Neo4jConnection).transaction = some 0 ∧
    0 ∈ (⟨1, [0], [TransportCall.startTxn]⟩ : TransportState).openTxns ∧
    ((⟨0, some 0⟩ : Neo4jConnection).start_transaction
        ⟨1, [0], [TransportCall.startTxn]⟩ (.ok ())).2.2.openTxns.length = 2 :=
  ⟨rfl, by decide,
    (start_transaction_while_open_leaks ⟨0, some 0⟩
      ⟨1, [0], [TransportCall.startTxn]⟩ 0 rfl (by decide)).2.2⟩

/-- C6: routing — the execute call issued by `query` goes to the held
transaction when one is held, otherwise to the session (an implicit
single-statement transaction); exactly one execute call is appended to the
transport trace, targeted according to the held handle. -/
theorem query_routes_by_held_transaction {T : Type} (conn : Neo4jConnection)
    (tr : TransportState) (stmt : String) (f : Row → T)
    (r : Except Neo4jError (List (Except Neo4jError Row))) :
    (conn.query tr stmt f r).2.2.calls
      = tr.calls ++ [match conn.transaction with
          | some t => TransportCall.executeTxn t
          | none => TransportCall.executeSession] := by
  cases r <;> rfl

/-- C7: query frame property — executing a query causes no local state
transition: the connection, including its transaction handle field and its
session field, is unchanged whether the execute call succeeds or fails. -/
theorem query_no_local_state_transition {T : Type} (conn : Neo4jConnection)
    (tr : TransportState) (stmt : String) (f : Row → T)
    (r : Except Neo4jError (List (Except Neo4jError Row))) :
    (conn.query tr stmt f r).2.1 = conn := by
  cases r <;> rfl

/-- C9: `release` always returns `Ok(())`, issues no transport call, performs
no rollback, and leaves the connection — including the transaction handle
field — unchanged, whatever state the connection is in. -/
theorem release_returns_ok_and_changes_nothing (conn : Neo4jConnection)
    (tr : TransportState) :
    conn.release tr = (Except.ok (), conn, tr) :=
  rfl

/-- C10: `session_id` is a constant function: every connection, whatever
session it wraps, returns the placeholder string, so session ids do not
distinguish sessions. -/
theorem session_id_constant (conn : Neo4jConnection) :
    conn.session_id = "session_id_placeholder" ∧
    ∀ other : Neo4jConnection, conn.session_id = other.session_id :=
  ⟨rfl, fun _ => rfl⟩

/-- The pool invariant holds for a freshly constructed pool. -/
theorem Pool.inv_init (capacity : Nat) : (Pool.init capacity).Inv := by
  refine ⟨Nat.zero_le _, ?_, ?_⟩
  · simp [Pool.init, Pool.allSessions]
  · intro s hs
    simp [Pool.init, Pool.allSessions] at hs
/-- One pool step preserves the invariant. -/
theorem Pool.Inv.step {p : Pool} (h : p.Inv) (op : PoolOp) : (p.step op).Inv := by
  obtain ⟨hcap, hnodup, hfresh⟩ := h
  cases op with
  | acquire =>
    show p.acquire.Inv
    cases hidle : p.idle with
    | cons s rest =>
      have hacq : p.acquire = { p with idle := rest, leased := p.leased ++ [s] } := by
        simp [Pool.acquire, hidle]
      have hperm : List.Perm ((rest ++ (p.leased ++ [s]) ++ p.discarded))
          (p.idle ++ p.leased ++ p.discarded) := by
        rw [hidle]
        have e1 : rest ++ (p.leased ++ [s]) ++ p.discarded
            = (rest ++ p.leased) ++ s :: p.discarded := by simp
        rw [e1]
        exact List.perm_middle
      rw [hacq]
      refine ⟨?_, ?_, ?_⟩
      · have hi : p.idle.length = rest.length + 1 := by rw [hidle]; simp
        simp only [List.length_append, List.length_cons, List.length_nil]
        omega
      · exact hperm.symm.nodup hnodup
      · intro x hx
        exact hfresh x (hperm.mem_iff.mp hx)
    | nil =>
      have hi : p.idle.length = 0 := by rw [hidle]; rfl
      by_cases hc : p.leased.length < p.capacity
      · have hacq : p.acquire
            = { p with leased := p.leased ++ [p.nextId], nextId := p.nextId + 1 } := by
          simp [Pool.acquire, hidle, hc]
        have hperm : List.Perm (p.idle ++ (p.leased ++ [p.nextId]) ++ p.discarded)
            (p.nextId :: (p.idle ++ p.leased ++ p.discarded)) := by
          have e1 : p.idle ++ (p.leased ++ [p.nextId]) ++ p.discarded
              = (p.idle ++ p.leased) ++ p.nextId :: p.discarded := by simp
          rw [e1]
          exact List.perm_middle
        rw [hacq]
        refine ⟨?_, ?_, ?_⟩
        · simp only [List.length_append, List.length_cons, List.length_nil]
          omega
        · refine hperm.symm.nodup (List.nodup_cons.mpr ⟨?_, hnodup⟩)
          intro hmem
          exact absurd (hfresh p.nextId hmem) (by omega)
        · intro x hx
          rcases List.mem_cons.mp (hperm.mem_iff.mp hx) with rfl | hx'
          · exact Nat.lt_succ_self _
          · exact Nat.lt_succ_of_lt (hfresh x hx')
      · have hacq : p.acquire = p := by
          simp [Pool.acquire, hidle, hc]
        rw [hacq]
        exact ⟨hcap, hnodup, hfresh⟩
  | release s poisoned =>
    show (p.release s poisoned).Inv
    by_cases hmem : s ∈ p.leased
    · have hL : List.Perm p.leased (s :: p.leased.erase s) := List.perm_cons_erase hmem
      have hlen : p.leased.length = (p.leased.erase s).length + 1 := by
        have hq := hL.length_eq
        simpa using hq
      have hold : List.Perm (p.idle ++ p.leased ++ p.discarded)
          (s :: ((p.idle ++ p.leased.erase s) ++ p.discarded)) := by
        refine ((hL.append_left p.idle).append_right p.discarded).trans ?_
        exact List.perm_middle.append_right p.discarded
      cases poisoned with
      | false =>
        have hrel : p.release s false
            = { p with leased := p.leased.erase s, idle := p.idle ++ [s] } := by
          simp [Pool.release, hmem]
        have hnew : List.Perm ((p.idle ++ [s]) ++ p.leased.erase s ++ p.discarded)
            (s :: ((p.idle ++ p.leased.erase s) ++ p.discarded)) := by
          have e1 : (p.idle ++ [s]) ++ p.leased.erase s ++ p.discarded
              = (p.idle ++ s :: p.leased.erase s) ++ p.discarded := by simp
          rw [e1]
          exact List.perm_middle.append_right p.discarded
        have hPerm : List.Perm (p.idle ++ p.leased ++ p.discarded)
            ((p.idle ++ [s]) ++ p.leased.erase s ++ p.discarded) :=
          hold.trans hnew.symm
        rw [hrel]
        refine ⟨?_, ?_, ?_⟩
        · simp only [List.length_append, List.length_cons, List.length_nil]
          omega
        · exact hPerm.nodup hnodup
        · intro x hx
          exact hfresh x (hPerm.mem_iff.mpr hx)
      | true =>
        have hrel : p.release s true
            = { p with leased := p.leased.erase s, discarded := p.discarded ++ [s] } := by
          simp [Pool.release, hmem]
        have hnew : List.Perm (p.idle ++ p.leased.erase s ++ (p.discarded ++ [s]))
            (s :: ((p.idle ++ p.leased.erase s) ++ p.discarded)) := by
          have e1 : p.idle ++ p.leased.erase s ++ (p.discarded ++ [s])
              = ((p.idle ++ p.leased.erase s) ++ p.discarded) ++ [s] := by simp
          rw [e1]
          exact List.perm_append_comm
        have hPerm : List.Perm (p.idle ++ p.leased ++ p.discarded)
            (p.idle ++ p.leased.erase s ++ (p.discarded ++ [s])) :=
          hold.trans hnew.symm
        rw [hrel]
        refine ⟨?_, ?_, ?_⟩
        · simp only [List.length_append, List.length_cons, List.length_nil]
          omega
        · exact hPerm.nodup hnodup
        · intro x hx
          exact hfresh x (hPerm.mem_iff.mpr hx)
    · have hrel : p.release s poisoned = p := by
        simp [Pool.release, hmem]
      rw [hrel]
      exact ⟨hcap, hnodup, hfresh⟩

/-- The invariant is preserved by any run of pool operations. -/
theorem Pool.Inv.run {p : Pool} (h : p.Inv) (ops : List PoolOp) : (p.run ops).Inv := by
  induction ops generalizing p with
  | nil => exact h
  | cons op rest ih => exact ih (h.step op)

/-- C8: for every capacity and every sequence of pool acquire/release
operations starting from a fresh pool, the bookkeeping satisfies
`|idle| + |leased| ≤ capacity` at the resulting observation point (the
sequence is arbitrary, so this covers every observation point), and the
sessions the pool has ever created are partitioned: the concatenation of the
idle, leased and discarded lists has no duplicate, so every session lies in
exactly one of the three. -/
theorem pool_capacity_and_partition_invariant (capacity : Nat) (ops : List PoolOp) :
    ((Pool.init capacity).run ops).idle.length
        + ((Pool.init capacity).run ops).leased.length
      ≤ ((Pool.init capacity).run ops).capacity ∧
    ((Pool.init capacity).run ops).allSessions.Nodup := by
  have h := (Pool.inv_init capacity).run ops
  exact ⟨h.cap, h.nodup⟩
